import Mathlib

/-!
Verification development for the `pv` (pipe viewer) transfer and display
engine.  The definitions below are shallow embeddings of the C functions in
`src/pv/`: machine integers are modelled as `Int`/`Nat` (C `long long`
division and remainder truncate toward zero, which is `Int.tdiv`/`Int.tmod`),
C strings are `List Char` (the terminating NUL is the end of the list), byte
buffers are `List Nat`, and `NULL` pointers are `Option.none`.
-/

/-! ## Elapsed time (src/pv/elapsedtime.c)

A `struct timespec` holds a seconds and a nanoseconds field; the C type of
both fields is signed and at least as wide as `long`, so both are `Int`.
-/

structure Timespec where
  tv_sec : Int
  tv_nsec : Int
deriving DecidableEq, Repr

/-- Embedding of `pv_elapsedtime_zero`: set the time to zero. -/
def pv_elapsedtime_zero : Timespec :=
  { tv_sec := 0, tv_nsec := 0 }

/-- Embedding of `pv_elapsedtime_compare` (elapsedtime.c lines 69-99):
return -1, 0, or 1 depending on whether the first time is earlier than,
equal to, or later than the second; `NULL` is treated as earliest. -/
def pv_elapsedtime_compare (first_time second_time : Option Timespec) : Int :=
  match first_time, second_time with
  | none, none => 0
  | none, some _ => -1
  | some _, none => 1
  | some a, some b =>
    if a.tv_sec < b.tv_sec then -1
    else if a.tv_sec > b.tv_sec then 1
    else if a.tv_nsec < b.tv_nsec then -1
    else if a.tv_nsec > b.tv_nsec then 1
    else 0

/-- Embedding of `pv_elapsedtime_add` (elapsedtime.c lines 105-143): sum the
seconds and nanosecond fields in `long long` arithmetic, then carry whole
seconds out of the nanosecond field with C truncating division.  A `NULL`
operand contributes zero. -/
def pv_elapsedtime_add (first_time second_time : Option Timespec) : Timespec :=
  let seconds : Int :=
    (match first_time with | some t => t.tv_sec | none => 0) +
    (match second_time with | some t => t.tv_sec | none => 0)
  let nanoseconds : Int :=
    (match first_time with | some t => t.tv_nsec | none => 0) +
    (match second_time with | some t => t.tv_nsec | none => 0)
  { tv_sec := seconds + nanoseconds.tdiv 1000000000,
    tv_nsec := nanoseconds.tmod 1000000000 }

/-- Embedding of `pv_elapsedtime_add_nsec` (elapsedtime.c lines 149-166). -/
def pv_elapsedtime_add_nsec (return_time : Timespec) (add_nanoseconds : Int) : Timespec :=
  let nanoseconds : Int := return_time.tv_nsec + add_nanoseconds
  { tv_sec := return_time.tv_sec + nanoseconds.tdiv 1000000000,
    tv_nsec := nanoseconds.tmod 1000000000 }

/-- Embedding of `pv_elapsedtime_subtract` (elapsedtime.c lines 172-205):
first time minus second time in `long long` arithmetic, carrying with C
truncating division and then normalising a negative nanosecond field by
borrowing one second. -/
def pv_elapsedtime_subtract (first_time second_time : Option Timespec) : Timespec :=
  let seconds : Int :=
    (match first_time with | some t => t.tv_sec | none => 0) -
    (match second_time with | some t => t.tv_sec | none => 0)
  let nanoseconds : Int :=
    (match first_time with | some t => t.tv_nsec | none => 0) -
    (match second_time with | some t => t.tv_nsec | none => 0)
  let seconds2 := seconds + nanoseconds.tdiv 1000000000
  let nanoseconds2 := nanoseconds.tmod 1000000000
  if nanoseconds2 < 0 then
    { tv_sec := seconds2 - 1, tv_nsec := 1000000000 + nanoseconds2 }
  else
    { tv_sec := seconds2, tv_nsec := nanoseconds2 }

/-- The value of a timespec in nanoseconds. -/
def Timespec.toNanos (t : Timespec) : Int :=
  t.tv_sec * 1000000000 + t.tv_nsec

theorem neg_lt_tmod (a : Int) {b : Int} (hb : 0 < b) : -b < Int.tmod a b := by
  rcases a with m | m
  · have h := Int.tmod_nonneg b (show (0:Int) ≤ Int.ofNat m from Int.ofNat_nonneg m)
    omega
  · rcases b with n | n
    · have hn : 0 < n := Int.ofNat_lt.mp hb
      have h2 : Nat.succ m % n < n := Nat.mod_lt _ hn
      show -(Int.ofNat n) < Int.tmod (Int.negSucc m) (Int.ofNat n)
      simp only [Int.tmod]
      exact Int.neg_lt_neg (Int.ofNat_lt.mpr h2)
    · exact absurd hb (lt_asymm (Int.negSucc_lt_zero n))

theorem tmod_billion_identity (n : Int) :
    1000000000 * n.tdiv 1000000000 + n.tmod 1000000000 = n :=
  Int.tdiv_add_tmod n 1000000000

/-- C5 (counterexample): with the second time later than the first,
`pv_elapsedtime_subtract` does not store the zero time; it stores the exact
negative difference, so the result can be negative. -/
theorem pv_elapsedtime_subtract_negative_cex :
    pv_elapsedtime_compare (some ⟨1, 0⟩) (some ⟨0, 0⟩) = 1 ∧
    pv_elapsedtime_subtract (some ⟨0, 0⟩) (some ⟨1, 0⟩) = ⟨-1, 0⟩ ∧
    pv_elapsedtime_subtract (some ⟨0, 0⟩) (some ⟨1, 0⟩) ≠ pv_elapsedtime_zero ∧
    (pv_elapsedtime_subtract (some ⟨0, 0⟩) (some ⟨1, 0⟩)).tv_sec < 0 := by
  decide

/-- C5 (amended): `pv_elapsedtime_subtract` computes the exact signed
difference of the two times, normalised so that the nanosecond field lies in
[0, 10^9); when the second time is later the seconds field is negative.  It
does not saturate at zero. -/
theorem pv_elapsedtime_subtract_exact (a b : Timespec) :
    (pv_elapsedtime_subtract (some a) (some b)).toNanos = a.toNanos - b.toNanos ∧
    0 ≤ (pv_elapsedtime_subtract (some a) (some b)).tv_nsec ∧
    (pv_elapsedtime_subtract (some a) (some b)).tv_nsec < 1000000000 := by
  have h := tmod_billion_identity (a.tv_nsec - b.tv_nsec)
  have hlt := Int.tmod_lt_of_pos (a.tv_nsec - b.tv_nsec) (show (0:Int) < 1000000000 by decide)
  have hgt := neg_lt_tmod (a.tv_nsec - b.tv_nsec) (show (0:Int) < 1000000000 by decide)
  simp only [pv_elapsedtime_subtract, Timespec.toNanos]
  split <;> dsimp only <;> exact ⟨by omega, by omega, by omega⟩

theorem pv_elapsedtime_add_toNanos (a b : Timespec) :
    (pv_elapsedtime_add (some a) (some b)).toNanos = a.toNanos + b.toNanos := by
  have h := tmod_billion_identity (a.tv_nsec + b.tv_nsec)
  simp only [pv_elapsedtime_add, Timespec.toNanos]
  omega

theorem Timespec.eq_of_toNanos_eq {x y : Timespec} (h : x.toNanos = y.toNanos)
    (hx1 : 0 ≤ x.tv_nsec) (hx2 : x.tv_nsec < 1000000000)
    (hy1 : 0 ≤ y.tv_nsec) (hy2 : y.tv_nsec < 1000000000) : x = y := by
  obtain ⟨xs, xn⟩ := x
  obtain ⟨ys, yn⟩ := y
  simp only [Timespec.toNanos] at h
  dsimp only at h hx1 hx2 hy1 hy2
  simp only [Timespec.mk.injEq]
  constructor <;> omega

/-- C9: for every timespec `t1` and every non-negative normalised duration
`d`, subtracting `t1` from `pv_elapsedtime_add t1 d` returns exactly `d`,
including across nanosecond carry boundaries. -/
theorem pv_elapsedtime_add_subtract_roundtrip (t1 d : Timespec)
    (hsec : 0 ≤ d.tv_sec) (h1 : 0 ≤ d.tv_nsec) (h2 : d.tv_nsec < 1000000000) :
    pv_elapsedtime_subtract (some (pv_elapsedtime_add (some t1) (some d))) (some t1) = d := by
  obtain ⟨he, hb1, hb2⟩ :=
    pv_elapsedtime_subtract_exact (pv_elapsedtime_add (some t1) (some d)) t1
  refine Timespec.eq_of_toNanos_eq ?_ hb1 hb2 h1 h2
  rw [he, pv_elapsedtime_add_toNanos]
  omega

theorem pv_elapsedtime_add_subtract_roundtrip_witness :
    pv_elapsedtime_subtract
      (some (pv_elapsedtime_add (some ⟨5, 999999999⟩) (some ⟨2, 1⟩)))
      (some ⟨5, 999999999⟩) = ⟨2, 1⟩ :=
  pv_elapsedtime_add_subtract_roundtrip ⟨5, 999999999⟩ ⟨2, 1⟩ (by decide) (by decide) (by decide)

/-! ## Number parsing (src/pv/number.c)

A C string is a `List Char`; the terminating NUL is the end of the list.
-/

/-- Embedding of the static helper `pv__isdigit` (number.c lines 20-23). -/
def pv__isdigit (c : Char) : Bool :=
  if ('0' ≤ c) ∧ (c ≤ '9') then true else false

/-- The leading-non-digit skip loop of `pv_getnum_size` (number.c lines
43-44). -/
def skipNonDigits : List Char → List Char
  | [] => []
  | c :: rest => if pv__isdigit c then c :: rest else skipNonDigits rest

/-- The integral-part loop of `pv_getnum_size` (number.c lines 50-53);
returns the accumulated value and the unconsumed remainder. -/
def parseDigits (acc : Int) : List Char → Int × List Char
  | [] => (acc, [])
  | c :: rest =>
    if pv__isdigit c then parseDigits (acc * 10 + ((c.toNat : Int) - 48)) rest
    else (acc, c :: rest)

/-- The fractional-part loop of `pv_getnum_size` (number.c lines 65-72): all
digits are consumed but accumulation stops once the divisor reaches 10000.
Returns (fractional_part, fractional_divisor, remainder). -/
def parseFrac (fp : Int) (divisor : Nat) : List Char → Int × Nat × List Char
  | [] => (fp, divisor, [])
  | c :: rest =>
    if pv__isdigit c then
      if divisor < 10000 then
        parseFrac (fp * 10 + ((c.toNat : Int) - 48)) (divisor * 10) rest
      else
        parseFrac fp divisor rest
    else (fp, divisor, c :: rest)

/-- The decimal-mark check of `pv_getnum_size` (number.c lines 63-73): a '.'
or ',' is skipped and the fractional part parsed, otherwise nothing is
consumed and the divisor stays 1. -/
def parseMaybeFrac (l : List Char) : Int × Nat × List Char :=
  match l with
  | [] => (0, 1, [])
  | c :: rest => if c = '.' ∨ c = ',' then parseFrac 0 1 rest else (0, 1, l)

/-- The space/tab skip before the units suffix (number.c lines 81-82). -/
def skipSpacesTabs : List Char → List Char
  | [] => []
  | c :: rest => if c = ' ' ∨ c = '\t' then skipSpacesTabs rest else c :: rest

/-- The units-suffix parse of `pv_getnum_size` (number.c lines 79-103): only
entered when the string has not ended; k/K m/M g/G t/T select a shift of
10/20/30/40 bits and anything else leaves the shift at zero. -/
def suffixShift (l : List Char) : Nat :=
  match l with
  | [] => 0
  | _ :: _ =>
    match skipSpacesTabs l with
    | [] => 0
    | c :: _ =>
      if c = 'k' ∨ c = 'K' then 10
      else if c = 'm' ∨ c = 'M' then 20
      else if c = 'g' ∨ c = 'G' then 30
      else if c = 't' ∨ c = 'T' then 40
      else 0

/-- The shift-application loop of `pv_getnum_size` (number.c lines 110-128):
left-shift both parts by `shift` bits, at most 30 bits at a time.  A left
shift of a non-negative signed value is multiplication by a power of two. -/
def shiftLoop (integral fractional : Int) (shift : Nat) : Int × Int :=
  if shift = 0 then (integral, fractional)
  else
    let shiftby := min shift 30
    shiftLoop (integral * 2 ^ shiftby) (fractional * 2 ^ shiftby) (shift - shiftby)
termination_by shift
decreasing_by
  simp_wf
  omega

/-- Embedding of `pv_getnum_size` (number.c lines 32-139). -/
def pv_getnum_size (str : Option (List Char)) : Int :=
  match str with
  | none => 0
  | some s0 =>
    let s1 := skipNonDigits s0
    let p := parseDigits 0 s1
    let q := parseMaybeFrac p.2
    let shift := suffixShift q.2.2
    let r := shiftLoop p.1 q.1 shift
    r.1 + Int.tdiv r.2 (q.2.1 : Int)

/-- The value promised by the specification: the same parse, but combined as
`shifted_integer_part + shifted_fractional_part / fractional_divisor`. -/
def getnum_size_formula (s0 : List Char) : Int :=
  let s1 := skipNonDigits s0
  let p := parseDigits 0 s1
  let q := parseMaybeFrac p.2
  let shift := suffixShift q.2.2
  p.1 * 2 ^ shift + Int.tdiv (q.1 * 2 ^ shift) (q.2.1 : Int)

theorem shiftLoop_eq (n : Nat) : ∀ i f : Int, shiftLoop i f n = (i * 2 ^ n, f * 2 ^ n) := by
  induction n using Nat.strong_induction_on with
  | _ n ih =>
    intro i f
    rw [shiftLoop]
    by_cases h : n = 0
    · subst h; simp
    · simp only [if_neg h]
      rw [ih (n - min n 30) (by omega)]
      have hexp : min n 30 + (n - min n 30) = n := by omega
      have e : ∀ x : Int, x * 2 ^ min n 30 * 2 ^ (n - min n 30) = x * 2 ^ n := by
        intro x
        rw [mul_assoc, ← pow_add, hexp]
      rw [e, e]

/-- C3: `pv_getnum_size` skips leading non-digits, parses a base-10 integer
part, an optional '.' or ',' fractional part capped at four digits, optional
whitespace and an optional k/K m/M g/G t/T suffix meaning a shift by
10/20/30/40 bits, and returns
`shifted_integer_part + shifted_fractional_part / fractional_divisor`;
in particular "1.5k" parses to 1536, "2M" to 2097152, and "1 TiB" parses the
same as "1T". -/
theorem pv_getnum_size_spec :
    (∀ s : List Char, pv_getnum_size (some s) = getnum_size_formula s) ∧
    pv_getnum_size (some "1.5k".toList) = 1536 ∧
    pv_getnum_size (some "2M".toList) = 2097152 ∧
    pv_getnum_size (some "1 TiB".toList) = pv_getnum_size (some "1T".toList) := by
  have hmain : ∀ s : List Char, pv_getnum_size (some s) = getnum_size_formula s := by
    intro s
    simp only [pv_getnum_size, getnum_size_formula, shiftLoop_eq]
  refine ⟨hmain, ?_, ?_, ?_⟩
  · rw [hmain]; decide
  · rw [hmain]; decide
  · rw [hmain, hmain]; decide

/-! ## Read-error skip schedule (src/pv/transfer.c lines 511-522)

When a non-transient read error occurs with skip-errors enabled,
`pv__transfer_read` chooses how far to skip ahead; `read_errors_in_a_row`
has already been incremented, so on the Nth consecutive error it equals N.
-/

/-- Embedding of the skip-amount choice in `pv__transfer_read` (transfer.c
lines 511-522): a configured non-zero fixed block wins, otherwise the amount
ramps up with the number of consecutive read errors. -/
def errorSkipAmount (error_skip_block read_errors_in_a_row : Nat) : Nat :=
  if error_skip_block > 0 then error_skip_block
  else if read_errors_in_a_row < 10 then
    (if read_errors_in_a_row < 5 then 1 else 2)
  else if read_errors_in_a_row < 20 then 2 ^ (read_errors_in_a_row - 10)
  else 512

/-- C7 (counterexample): on the 5th consecutive read error the adaptive
schedule already chooses 2, not 1 as the claimed
1,1,1,1,1, 2,2,2,2,2, 4,8,16,... schedule says. -/
theorem errorSkipAmount_cex : errorSkipAmount 0 5 = 2 ∧ (2 : Nat) ≠ 1 := by
  decide

/-- C7 (amended): with no fixed error-skip block, the skip distance on the
Nth consecutive read error is 1 for N = 1..4, 2 for N = 5..9, 2^(N-10) for
N = 10..19 (so it restarts at 1 and doubles up to 512), and 512 from the
20th error on; it never exceeds 512. -/
theorem errorSkipAmount_schedule (n : Nat) (h : 1 ≤ n) :
    (n < 5 → errorSkipAmount 0 n = 1) ∧
    (5 ≤ n → n < 10 → errorSkipAmount 0 n = 2) ∧
    (10 ≤ n → n < 20 → errorSkipAmount 0 n = 2 ^ (n - 10)) ∧
    (20 ≤ n → errorSkipAmount 0 n = 512) ∧
    errorSkipAmount 0 n ≤ 512 := by
  unfold errorSkipAmount
  refine ⟨?_, ?_, ?_, ?_, ?_⟩
  · intro h5
    rw [if_neg (by omega), if_pos (by omega), if_pos (by omega)]
  · intro h5 h10
    rw [if_neg (by omega), if_pos (by omega), if_neg (by omega)]
  · intro h10 h20
    rw [if_neg (by omega), if_neg (by omega), if_pos (by omega)]
  · intro h20
    rw [if_neg (by omega), if_neg (by omega), if_neg (by omega)]
  · rw [if_neg (by omega)]
    split_ifs with h10 h5 h20
    · omega
    · omega
    · have hp : (2:Nat) ^ (n - 10) ≤ 2 ^ 9 := Nat.pow_le_pow_right (by omega) (by omega)
      omega
    · omega

theorem errorSkipAmount_schedule_witness : errorSkipAmount 0 7 = 2 :=
  (errorSkipAmount_schedule 7 (by decide)).2.1 (by decide) (by decide)

/-! ## Display percentage (src/pv/display.c)

`pv__format` maintains `state->display.percentage`; the inputs that matter
are the configured total size, the numeric-mode flag, whether the progress
component is required, whether the computed rate is positive, the byte total
so far, and the previous working percentage.  `pv__format` is only reached
with `total_bytes >= 0` (a negative total frees the buffer and returns
early).
-/

/-- Embedding of `pv__calc_percentage` (display.c lines 119-128); `off_t`
division truncates toward zero. -/
def pv__calc_percentage (so_far total : Int) : Int :=
  if total < 1 then 0 else Int.tdiv (so_far * 100) total

/-- Embedding of the working-percentage update in `pv__format` (display.c
lines 700-720): with unknown size the percentage is a ticker advancing by 2
while the rate is positive and wrapping to 0 above 199; with known size it
is recalculated when numeric mode or the progress component needs it. -/
def pv__format_percentage (size : Int) (numeric progressRequired ratePositive : Bool)
    (total_bytes percentage : Int) : Int :=
  if size ≤ 0 then
    let p := if ratePositive then percentage + 2 else percentage
    if p > 199 then 0 else p
  else if numeric || progressRequired then pv__calc_percentage total_bytes size
  else percentage

/-- The working percentage at the end of a `pv__format` call: numeric mode
returns before the progress bar is assembled (display.c line 792), and the
bar assembly clamps the stored percentage to [0, 100000] only when the
progress component is required and the size is known (display.c lines
1106-1113). -/
def pv__format_percentage_final (size : Int) (numeric progressRequired ratePositive : Bool)
    (total_bytes percentage : Int) : Int :=
  let p := pv__format_percentage size numeric progressRequired ratePositive total_bytes percentage
  if numeric then p
  else if progressRequired ∧ 0 < size then
    (if p < 0 then 0 else if p > 100000 then 100000 else p)
  else p

/-- C4 (counterexample): with size 100 and 200 bytes transferred, a display
update leaves the working percentage at 200, outside [0, 100], even though
the size is greater than zero. -/
theorem pv__format_percentage_cex :
    pv__format_percentage_final 100 false true true 200 50 = 200 ∧
    ¬ (pv__format_percentage_final 100 false true true 200 50 ≤ 100) := by
  decide

/-- C4 (amended): after a display update, with unknown size the working
percentage stays in [0, 200); with known positive size it is bounded by
[0, 100] only when the bytes transferred do not exceed the size and the
percentage is actually recalculated (numeric mode, or progress component
required). -/
theorem pv__format_percentage_bounds (size total_bytes percentage : Int)
    (numeric progressRequired ratePositive : Bool)
    (htot : 0 ≤ total_bytes) (hprev1 : 0 ≤ percentage) (hprev2 : percentage < 200) :
    (size ≤ 0 →
      0 ≤ pv__format_percentage_final size numeric progressRequired ratePositive
            total_bytes percentage ∧
      pv__format_percentage_final size numeric progressRequired ratePositive
            total_bytes percentage < 200) ∧
    (0 < size → total_bytes ≤ size → (numeric = true ∨ progressRequired = true) →
      0 ≤ pv__format_percentage_final size numeric progressRequired ratePositive
            total_bytes percentage ∧
      pv__format_percentage_final size numeric progressRequired ratePositive
            total_bytes percentage ≤ 100) := by
  constructor
  · intro hsize
    have hp : 0 ≤ pv__format_percentage size numeric progressRequired ratePositive
          total_bytes percentage ∧
        pv__format_percentage size numeric progressRequired ratePositive
          total_bytes percentage < 200 := by
      simp only [pv__format_percentage, if_pos hsize]
      split_ifs <;> omega
    simp only [pv__format_percentage_final]
    split_ifs <;> omega
  · intro hsize htle hreq
    have hcalc : 0 ≤ pv__calc_percentage total_bytes size ∧
        pv__calc_percentage total_bytes size ≤ 100 := by
      simp only [pv__calc_percentage, if_neg (by omega : ¬ size < 1)]
      constructor
      · exact Int.tdiv_nonneg (by omega) (by omega)
      · rw [Int.tdiv_eq_ediv (by omega) (by omega)]
        have h1 : total_bytes * 100 ≤ size * 100 := by nlinarith
        have h2 : total_bytes * 100 / size ≤ size * 100 / size :=
          Int.ediv_le_ediv hsize h1
        have h3 : size * 100 / size = 100 := by
          rw [mul_comm]
          exact Int.mul_ediv_cancel 100 (by omega)
        rw [h3] at h2
        exact h2
    have hne : ¬ size ≤ 0 := by omega
    have hnum : (numeric || progressRequired) = true := by
      rcases hreq with h | h <;> simp [h]
    have hp : pv__format_percentage size numeric progressRequired ratePositive
        total_bytes percentage = pv__calc_percentage total_bytes size := by
      simp only [pv__format_percentage, if_neg hne, hnum, if_pos]
    simp only [pv__format_percentage_final, hp]
    split_ifs <;> omega

theorem pv__format_percentage_bounds_witness :
    0 ≤ pv__format_percentage_final 100 false true true 40 50 ∧
    pv__format_percentage_final 100 false true true 40 50 ≤ 100 :=
  (pv__format_percentage_bounds 100 40 50 false true true (by decide) (by decide)
    (by decide)).2 (by decide) (by decide) (Or.inr rfl)

/-! ## Bounded concatenation (src/pv/string.c lines 78-115)

This embeds the repository's own fallback implementation of `pv_strlcat`
(the branch compiled when the platform has no `strlcat`).  A byte buffer is
a `List Nat`; `src` is the NUL-free content of the source string, so
`strlen(src)` is its length.  `pv_snprintf(dst+dstlen, available, "%.*s",
available-1, src)` copies `min (available-1) (strlen src)` bytes and NUL
terminates, and itself ends by writing a NUL at the last byte of the region
it was given, which is byte `dstsize-1` of `dst`.
-/

/-- The length of the C string stored in a byte buffer: the number of bytes
before the first NUL. -/
def cstrlen : List Nat → Nat
  | [] => 0
  | b :: rest => if b = 0 then 0 else 1 + cstrlen rest

/-- The buffer after the bounded copy step of `pv_strlcat` (string.c line
111): `k` bytes of `src` are written at offset `dstlen`, followed by a
NUL. -/
def strlcatCopy (d1 s : List Nat) (dstlen k : Nat) : List Nat :=
  d1.take dstlen ++ s.take k ++ [0] ++ d1.drop (dstlen + k + 1)

/-- Embedding of `pv_strlcat` (string.c lines 78-115, the fallback branch):
returns the new buffer contents and the returned length. -/
def pv_strlcat (dst src : Option (List Nat)) (dstsize : Nat) : Option (List Nat) × Nat :=
  match dst, src with
  | none, _ => (none, 0)
  | some d, none => (some d, 0)
  | some d, some s =>
    if dstsize = 0 then (some d, 0)
    else
      let d1 := d.set (dstsize - 1) 0
      let dstlen := cstrlen d1
      let srclen := s.length
      let available := dstsize - dstlen
      if available > 1 then
        (some ((strlcatCopy d1 s dstlen (min (available - 1) srclen)).set (dstsize - 1) 0),
         dstlen + srclen)
      else (some d1, dstlen + srclen)

theorem cstrlen_le_of_zero {l : List Nat} {i : Nat} (h : l[i]? = some 0) : cstrlen l ≤ i := by
  induction l generalizing i with
  | nil => simp at h
  | cons b rest ih =>
    cases i with
    | zero =>
      simp at h
      simp [cstrlen, h]
    | succ j =>
      simp at h
      by_cases hb : b = 0
      · simp [cstrlen, hb]
      · simp only [cstrlen, if_neg hb]
        have := ih h
        omega

theorem strlcatCopy_length (d1 s : List Nat) (k : Nat) (hk : k ≤ s.length)
    (h1 : cstrlen d1 + k + 1 ≤ d1.length) :
    (strlcatCopy d1 s (cstrlen d1) k).length = d1.length := by
  simp only [strlcatCopy, List.length_append, List.length_take, List.length_drop,
    List.length_cons, List.length_nil]
  omega

/-- C10: `pv_strlcat` on a destination buffer of its stated size always
leaves the buffer NUL-terminated within that size (indeed at its last byte)
and returns the length of the (possibly truncated) destination string plus
the length of the source, whether or not truncation occurs; a `NULL`
destination or source, or a zero size, returns 0 and leaves the buffer
alone. -/
theorem pv_strlcat_spec (d s : List Nat) (n : Nat) (hd : d.length = n) (hn : 0 < n)
    (hs : 0 ∉ s) :
    (pv_strlcat (some d) (some s) n).2 = cstrlen (d.set (n - 1) 0) + s.length ∧
    (∃ r, (pv_strlcat (some d) (some s) n).1 = some r ∧ r.length = n ∧
      r[n - 1]? = some 0) ∧
    (∀ src m, pv_strlcat none src m = (none, 0)) ∧
    (∀ m, pv_strlcat (some d) none m = (some d, 0)) ∧
    pv_strlcat (some d) (some s) 0 = (some d, 0) := by
  have hne : ¬ n = 0 := by omega
  have hlen1 : (d.set (n - 1) 0).length = n := by rw [List.length_set, hd]
  have hz : (d.set (n - 1) 0)[n - 1]? = some 0 :=
    List.getElem?_set_self (by omega)
  have hdstlen : cstrlen (d.set (n - 1) 0) ≤ n - 1 := cstrlen_le_of_zero hz
  refine ⟨?_, ?_, fun src m => rfl, fun m => rfl, rfl⟩
  · simp only [pv_strlcat, if_neg hne]
    split_ifs <;> rfl
  · simp only [pv_strlcat, if_neg hne]
    split_ifs with hav
    · have hcl : (strlcatCopy (d.set (n - 1) 0) s (cstrlen (d.set (n - 1) 0))
          (min (n - cstrlen (d.set (n - 1) 0) - 1) s.length)).length = n := by
        rw [strlcatCopy_length _ _ _ (Nat.min_le_right _ _) (by omega), hlen1]
      refine ⟨_, rfl, ?_, ?_⟩
      · rw [List.length_set, hcl]
      · exact List.getElem?_set_self (by omega)
    · exact ⟨_, rfl, hlen1, hz⟩

theorem pv_strlcat_spec_witness :
    (pv_strlcat (some [97, 98, 0, 99, 100]) (some [120, 121, 122]) 5).2 =
      cstrlen (([97, 98, 0, 99, 100] : List Nat).set (5 - 1) 0) +
        ([120, 121, 122] : List Nat).length ∧
    (∃ r, (pv_strlcat (some [97, 98, 0, 99, 100]) (some [120, 121, 122]) 5).1 = some r ∧
      r.length = 5 ∧ r[5 - 1]? = some 0) ∧
    (∀ src m, pv_strlcat none src m = (none, 0)) ∧
    (∀ m, pv_strlcat (some [97, 98, 0, 99, 100]) none m = (some [97, 98, 0, 99, 100], 0)) ∧
    pv_strlcat (some [97, 98, 0, 99, 100]) (some [120, 121, 122]) 0 =
      (some [97, 98, 0, 99, 100], 0) :=
  pv_strlcat_spec [97, 98, 0, 99, 100] [120, 121, 122] 5 (by decide) (by decide) (by decide)

/-! ## ETA component rendering (src/pv/display.c)

In `pv__format`, a required component whose content the loop leaves empty
contributes a zero-length segment, and the assembly loop at lines 1223-1225
skips zero-length segments.  The check at lines 820-825 empties the `%e`
(ETA) and `%I` (FINETA) components whenever the size is below 1.  The
`pv__seconds_remaining` input is floating-point rate arithmetic, so the raw
ETA is an abstract integer input here.
-/

/-- Embedding of `bound_long` (display.c lines 555-558). -/
def bound_long (x min max : Int) : Int :=
  if x < min then min else if x > max then max else x

/-- Rendering of a `%02ld` field for the values 0..99 used by the ETA
component. -/
def pad2 (n : Int) : String :=
  if 0 ≤ n ∧ n < 10 then "0" ++ toString n else toString n

/-- Rendering of the ETA time of `pv__format` (display.c lines 936-946):
`d:hh:mm:ss` once the ETA exceeds a day, else `h:mm:ss`. -/
def renderEtaTime (eta : Int) : String :=
  if eta > 86400 then
    toString (eta.tdiv 86400) ++ ":" ++ pad2 ((eta.tdiv 3600).tmod 24) ++ ":" ++
      pad2 ((eta.tdiv 60).tmod 60) ++ ":" ++ pad2 (eta.tmod 60)
  else
    toString (eta.tdiv 3600) ++ ":" ++ pad2 ((eta.tdiv 60).tmod 60) ++ ":" ++
      pad2 (eta.tmod 60)

/-- Embedding of the `%e` component content computed by one `pv__format`
call (display.c lines 820-825 and 918-961): with size below 1 the content is
emptied and the case is skipped; otherwise the ETA is bounded into
[0, 360000000], rendered with an "ETA " label, and overwritten with spaces
of the same length on the final update (negative `bytes_since_last`). -/
def pv__format_component_eta (size bytes_since_last eta_raw : Int) : String :=
  if size < 1 then ""
  else
    let rendered := "ETA " ++ renderEtaTime (bound_long eta_raw 0 360000000)
    if bytes_since_last < 0 then String.mk (rendered.toList.map (fun _ => ' '))
    else rendered

/-- Embedding of the segment-assembly loop of `pv__format` (display.c lines
1211-1245) restricted to its segment-skipping behaviour: zero-length
segments are skipped, the rest are concatenated in order (the terminal-width
truncation, which can only drop further segments, is not modelled). -/
def pv__format_assemble (segments : List String) : String :=
  String.join (segments.filter (fun seg => seg.length != 0))

/-- C6 (counterexample): with size 0, the `%e` component of a display update
is the empty string and the assembly loop omits it entirely, rather than
rendering spaces of its usual width (11 characters for this ETA). -/
theorem pv__format_eta_omitted_cex :
    pv__format_component_eta 0 5 100 = "" ∧
    pv__format_assemble ["A", pv__format_component_eta 0 5 100, "B"] = "AB" ∧
    (pv__format_component_eta 1 5 100).length = 11 ∧
    pv__format_assemble ["A", pv__format_component_eta 0 5 100, "B"] ≠
      "A" ++ String.mk (List.replicate 11 ' ') ++ "B" := by
  decide

/-- C6 (amended): with size below 1 the `%e` (and, via the same guard, `%I`)
component content is set to the empty string, so the assembled line omits it
completely; the spaces-of-usual-width rendering happens instead on the final
update (negative `bytes_since_last`) when the size is known. -/
theorem pv__format_eta_zero_size_empty (size bsl eta : Int) :
    (size < 1 → pv__format_component_eta size bsl eta = "" ∧
      ∀ pre post,
        pv__format_assemble [pre, pv__format_component_eta size bsl eta, post] =
          pv__format_assemble [pre, post]) ∧
    (1 ≤ size → bsl < 0 →
      ∀ c ∈ (pv__format_component_eta size bsl eta).toList, c = ' ') := by
  constructor
  · intro hs
    have he : pv__format_component_eta size bsl eta = "" := by
      simp [pv__format_component_eta, if_pos hs]
    refine ⟨he, fun pre post => ?_⟩
    simp [pv__format_assemble, he, List.filter_cons]
  · intro hs hb
    have hns : ¬ size < 1 := by omega
    simp only [pv__format_component_eta, if_neg hns, if_pos hb]
    intro c hc
    simp only [String.toList] at hc
    rcases List.mem_map.mp hc with ⟨x, hx, rfl⟩
    rfl

theorem pv__format_eta_zero_size_empty_witness :
    pv__format_component_eta 0 5 100 = "" ∧
    pv__format_assemble ["A", pv__format_component_eta 0 5 100, "B"] =
      pv__format_assemble ["A", "B"] := by
  have h := (pv__format_eta_zero_size_empty 0 5 100).1 (by decide)
  exact ⟨h.1, h.2 "A" "B"⟩

/-! ## The transfer engine (src/pv/transfer.c) and main loop (src/pv/loop.c)

The engine is modelled at the granularity of one `pv_transfer` call.  A byte
is a `Nat`; standard output is the `output` list; the remaining unread bytes
of the current input file are `current_input`.  Scheduling facts the C code
obtains from the operating system — which descriptors `select` reports
ready, how many bytes a `read` or `write` call moves — are supplied by a
`TransferChoice` oracle, one per loop iteration.

Modelling scope, matching the build without zero-copy (`splice`) and with
`MAXIMISE_BUFFER_FILL` enabled as in pv-internal.h: the `splice` path, the
`O_DIRECT` handling, the buffer (re)allocation, the display bookkeeping
(`lastoutput_buffer`) and the read-error recovery paths (whose skip-distance
schedule is embedded separately as `errorSkipAmount`) are not part of this
state machine; `pv__transfer_read_repeated` is modelled by its interface
contract: it moves between 1 and `count` of the remaining input bytes while
any remain, and returns 0 exactly at end of file.
-/

/-- The errno cases distinguished by `pv__transfer_write` after a failed
`pv__transfer_write_repeated` (transfer.c lines 750-779). -/
inductive WriteErr where
  | eintr
  | eagain
  | epipe
  | other
deriving DecidableEq, Repr

/-- The per-iteration scheduling oracle: `select` readiness of each side,
how many bytes the read side delivers, and the outcome of the write side. -/
structure TransferChoice where
  ready_read : Bool
  ready_write : Bool
  read_oracle : Nat
  write_outcome : Except WriteErr Nat
deriving Repr

/-- The fields of `pvstate_t` the transfer engine reads or writes
(pv-internal.h lines 243-292 plus the control flags it consults), together
with the modelled standard output. -/
structure PvXferState where
  buffer_size : Nat
  transfer_buffer : List Nat
  read_position : Nat
  write_position : Nat
  to_write : Nat
  written : Int
  lineswritten : Int
  exit_status : Nat
  error_msgs : List String
  linemode : Bool
  null_terminated_lines : Bool
  discard_input : Bool
  rate_limit : Nat
  output : List Nat
deriving Repr

/-- One `pv_transfer` invocation's view of the loop state: the engine state,
the two EOF flags owned by `pv_main_loop`, the unread bytes of the current
input file, and the input files not yet started. -/
structure PvLoop where
  st : PvXferState
  eof_in : Bool
  eof_out : Bool
  current_input : List Nat
  remaining_files : List (List Nat)
deriving Repr

/-- Embedding of `pv_memrchr` (string.c lines 160-181): index of the last
occurrence of `m`, if any. -/
def pv_memrchr : List Nat → Nat → Option Nat
  | [], _ => none
  | b :: rest, m =>
    match pv_memrchr rest m with
    | some i => some (i + 1)
    | none => if b = m then some 0 else none

/-- The to_write computation of `pv_transfer` (transfer.c lines 977-982):
the pending bytes in the buffer, clamped to `allowed` when rate limiting is
active or a budget was given.  `write_position ≤ read_position` is the
documented buffer invariant (pv-internal.h lines 247-253). -/
def computeToWrite (allowed : Nat) (L : PvLoop) : PvLoop :=
  let tw := L.st.read_position - L.st.write_position
  let tw := if (L.st.rate_limit > 0 ∨ allowed > 0) ∧ tw > allowed then allowed else tw
  { L with st := { L.st with to_write := tw } }

/-- The read phase of `pv_transfer` (transfer.c lines 386-427, without the
splice and read-error paths): `pv__transfer_read_repeated` stores `nread`
bytes at the read cursor, where `nread` is 0 exactly at end of file and
otherwise between 1 and the free buffer room; a zero read marks end of
input, and also end of output if the buffer is already drained. -/
def readPhase (o : Nat) (L : PvLoop) : PvLoop :=
  let bytes_can_read := L.st.buffer_size - L.st.read_position
  let nread := min (o + 1) (min bytes_can_read L.current_input.length)
  if nread = 0 then
    { L with
      eof_in := true
      eof_out := if L.st.write_position ≥ L.st.read_position then true else L.eof_out }
  else
    { L with
      st := { L.st with
              transfer_buffer :=
                L.st.transfer_buffer.take L.st.read_position ++
                  L.current_input.take nread ++
                  L.st.transfer_buffer.drop (L.st.read_position + nread)
              read_position := L.st.read_position + nread }
      current_input := L.current_input.drop nread }

/-- Embedding of the line-mode truncation in `pv_transfer` (transfer.c lines
1034-1044): only in line mode with null-terminated lines off, the pending
write is cut after the last newline (byte 10) found in the pending region,
when there is one. -/
def lineModeTruncate (L : PvLoop) : PvLoop :=
  if L.st.to_write > 0 ∧ L.st.linemode ∧ ¬L.st.null_terminated_lines then
    match pv_memrchr ((L.st.transfer_buffer.drop L.st.write_position).take L.st.to_write) 10 with
    | some i => { L with st := { L.st with to_write := i + 1 } }
    | none => L
  else L

/-- The separator used for line counting by `pv__transfer_write`
(transfer.c lines 674-678). -/
def lineSeparator (null_terminated_lines : Bool) : Nat :=
  if null_terminated_lines then 0 else 10

/-- The separator count over the written region performed by
`pv__transfer_write` in line mode (transfer.c lines 669-689). -/
def countLines (st : PvXferState) (chunk : List Nat) : Int :=
  if st.linemode then (chunk.count (lineSeparator st.null_terminated_lines) : Int)
  else 0

/-- The successful-write bookkeeping of `pv__transfer_write` (transfer.c
lines 665-747): count separators in the written region in line mode, append
the written bytes to standard output (unless discard-output), advance the
write cursor, and on a full drain reset both cursors and propagate end of
input to end of output. -/
def writeSuccess (nwritten : Nat) (L : PvLoop) : PvLoop :=
  let chunk := (L.st.transfer_buffer.drop L.st.write_position).take nwritten
  let st1 : PvXferState :=
    { L.st with
      output := if L.st.discard_input then L.st.output else L.st.output ++ chunk
      write_position := L.st.write_position + nwritten
      written := L.st.written + nwritten
      lineswritten := L.st.lineswritten + countLines L.st chunk }
  if st1.read_position ≤ st1.write_position then
    { L with
      st := { st1 with write_position := 0, read_position := 0 }
      eof_out := if L.eof_in then true else L.eof_out }
  else
    { L with st := st1 }

/-- Embedding of `pv__transfer_write` (transfer.c lines 629-780, without the
unreachable missing-buffer branch and the display-only `lastoutput`
bookkeeping): returns the updated state and the C return value (0 = the
caller `pv_transfer` must return 0 now, 1 = continue).  With discard-output
the whole pending write counts as written without touching standard output;
otherwise the outcome of `pv__transfer_write_repeated` decides: a
non-negative count plays the success path (0 meaning end of output), EINTR
and EAGAIN are transient, EPIPE marks both EOFs quietly, and any other
error reports, sets exit-status bit 16 and ends the output side. -/
def pv__transfer_write (outcome : Except WriteErr Nat) (L : PvLoop) : PvLoop × Nat :=
  let nresult : Except WriteErr Nat :=
    if L.st.discard_input then Except.ok L.st.to_write
    else if L.st.to_write > 0 then
      match outcome with
      | Except.ok n => Except.ok (min n L.st.to_write)
      | Except.error e => Except.error e
    else Except.ok 0
  match nresult with
  | Except.ok 0 => ({ L with eof_out := true }, 1)
  | Except.ok (n + 1) => (writeSuccess (n + 1) L, 1)
  | Except.error WriteErr.eintr => (L, 0)
  | Except.error WriteErr.eagain => (L, 0)
  | Except.error WriteErr.epipe => ({ L with eof_in := true, eof_out := true }, 0)
  | Except.error WriteErr.other =>
    ({ L with
       st := { L.st with
               error_msgs := L.st.error_msgs ++ ["write failed"]
               exit_status := L.st.exit_status ||| 16
               written := -1 }
       eof_out := true }, 1)

/-- The `MAXIMISE_BUFFER_FILL` rotation of `pv_transfer` (transfer.c lines
1061-1079): move the unwritten bytes down to offset zero. -/
def rotateBuffer (L : PvLoop) : PvLoop :=
  if L.st.write_position > 0 then
    if L.st.write_position < L.st.read_position then
      let len := L.st.read_position - L.st.write_position
      { L with
        st := { L.st with
                transfer_buffer :=
                  (L.st.transfer_buffer.drop L.st.write_position).take len ++
                    L.st.transfer_buffer.drop len
                read_position := len
                write_position := 0 } }
    else
      { L with st := { L.st with read_position := 0, write_position := 0 } }
  else L

/-- The per-call line-counter reset of `pv_transfer` (transfer.c lines
954-955). -/
def resetLineCount (L : PvLoop) : PvLoop :=
  if L.st.linemode then { L with st := { L.st with lineswritten := 0 } } else L

/-- The per-call reset of the written-bytes counter (transfer.c line
1017). -/
def resetWritten (L : PvLoop) : PvLoop :=
  { L with st := { L.st with written := 0 } }

/-- The condition under which `pv_transfer` watches the input descriptor
(transfer.c lines 963-969): input not at EOF and room left in the buffer. -/
def checkRead (L : PvLoop) : Bool :=
  !L.eof_in && decide (L.st.read_position < L.st.buffer_size)

/-- The condition under which `pv_transfer` watches standard output
(transfer.c lines 984-990): output not at EOF and something to write. -/
def checkWrite (L : PvLoop) : Bool :=
  !L.eof_out && decide (L.st.to_write > 0)

/-- Embedding of `pv_transfer` (transfer.c lines 859-1082, within the
modelling scope described above): reset the line counter, bail out when both
sides already hit EOF, decide which sides to watch, run the read phase, the
line-mode truncation and the write phase, rotate the buffer, and return the
modelled state together with the C return value. -/
def pv_transfer (c : TransferChoice) (allowed : Nat) (L0 : PvLoop) : PvLoop × Int :=
  let L := resetLineCount L0
  if L.eof_in ∧ L.eof_out then (L, 0)
  else
    let check_read := checkRead L
    let L := computeToWrite allowed L
    let check_write := checkWrite L
    let ready_to_read := c.ready_read && check_read
    let ready_to_write := c.ready_write && check_write
    let L := resetWritten L
    let L := if ready_to_read then readPhase c.read_oracle L else L
    let L := lineModeTruncate L
    if ready_to_write && decide (L.st.read_position > L.st.write_position) &&
        decide (L.st.to_write > 0) then
      match pv__transfer_write c.write_outcome L with
      | (L2, 0) => (L2, 0)
      | (L2, _) => (rotateBuffer L2, L2.st.written)
    else
      (rotateBuffer L, L.st.written)

/-- The next-file advance of `pv_main_loop` (loop.c lines 230-237): when
both EOF flags are set and readable files remain, open the next one and
clear both flags. -/
def advanceFile (L : PvLoop) : PvLoop :=
  if L.eof_in ∧ L.eof_out then
    match L.remaining_files with
    | [] => L
    | f :: rest =>
      { L with
        current_input := f
        remaining_files := rest
        eof_in := false
        eof_out := false }
  else L

/-- One iteration of `pv_main_loop` (loop.c lines 154-345) restricted to the
transfer work: with no rate limit and no stop-at-size, `cansend` stays 0,
`pv_transfer` runs, and on a per-file EOF the loop advances to the next
file.  The display, remote-control and timing work of the loop does not
touch the payload. -/
def pv_main_loop_step (c : TransferChoice) (L : PvLoop) : PvLoop :=
  advanceFile (pv_transfer c 0 L).1

/-- A run of the main transfer loop under a schedule of oracle choices. -/
def pv_main_loop_run (cs : List TransferChoice) (L : PvLoop) : PvLoop :=
  cs.foldl (fun acc c => pv_main_loop_step c acc) L

/-- The loop state at the start of `pv_main_loop`: empty zero-filled buffer,
cursors at zero, nothing written, first readable file current, discard off.
-/
def initPvLoop (bufsize : Nat) (first : List Nat) (rest : List (List Nat))
    (linemode null_terminated : Bool) : PvLoop :=
  { st := { buffer_size := bufsize
            transfer_buffer := List.replicate bufsize 0
            read_position := 0
            write_position := 0
            to_write := 0
            written := 0
            lineswritten := 0
            exit_status := 0
            error_msgs := []
            linemode := linemode
            null_terminated_lines := null_terminated
            discard_input := false
            rate_limit := 0
            output := [] }
    eof_in := false
    eof_out := false
    current_input := first
    remaining_files := rest }

/-- The unwritten bytes sitting in the transfer buffer. -/
def bufWindow (L : PvLoop) : List Nat :=
  (L.st.transfer_buffer.drop L.st.write_position).take
    (L.st.read_position - L.st.write_position)

/-- Every payload byte is in exactly one place: already on standard output,
pending in the buffer, unread in the current file, or in a later file. -/
def absBytes (L : PvLoop) : List Nat :=
  L.st.output ++ bufWindow L ++ L.current_input ++ L.remaining_files.flatten

/-- The structural invariant of the transfer loop: the buffer cursors stay
ordered and in bounds, end of input means the current file is exhausted, and
end of output additionally means the buffer is drained. -/
def loopInv (L : PvLoop) : Prop :=
  L.st.write_position ≤ L.st.read_position ∧
  L.st.read_position ≤ L.st.buffer_size ∧
  L.st.transfer_buffer.length = L.st.buffer_size ∧
  (L.eof_in = true → L.current_input = []) ∧
  (L.eof_out = true → L.eof_in = true ∧ L.st.write_position = L.st.read_position) ∧
  L.st.discard_input = false

/-- A scheduling choice whose write outcome reflects what POSIX `write` can
do on a healthy descriptor: move at least one byte, or fail transiently. -/
def goodChoice (c : TransferChoice) : Prop :=
  (∃ n, c.write_outcome = Except.ok (n + 1)) ∨
  c.write_outcome = Except.error WriteErr.eintr ∨
  c.write_outcome = Except.error WriteErr.eagain

theorem pv_memrchr_some_lt {l : List Nat} {m i : Nat} (h : pv_memrchr l m = some i) :
    i < l.length := by
  induction l generalizing i with
  | nil => simp [pv_memrchr] at h
  | cons b rest ih =>
    simp only [pv_memrchr] at h
    rcases hr : pv_memrchr rest m with _ | j
    · rw [hr] at h
      split_ifs at h
      · simp only [Option.some.injEq] at h
        simp [← h]
    · rw [hr] at h
      simp only [Option.some.injEq] at h
      have := ih hr
      simp only [List.length_cons]
      omega

theorem pv_memrchr_some_mem {l : List Nat} {m i : Nat} (h : pv_memrchr l m = some i) :
    l[i]? = some m := by
  induction l generalizing i with
  | nil => simp [pv_memrchr] at h
  | cons b rest ih =>
    simp only [pv_memrchr] at h
    rcases hr : pv_memrchr rest m with _ | j
    · rw [hr] at h
      split_ifs at h with hb
      · simp only [Option.some.injEq] at h
        subst hb
        simp [← h]
    · rw [hr] at h
      simp only [Option.some.injEq] at h
      have := ih hr
      simp [← h, this]


theorem pv_memrchr_none_iff {l : List Nat} {m : Nat} : pv_memrchr l m = none ↔ m ∉ l := by
  induction l with
  | nil => simp [pv_memrchr]
  | cons b rest ih =>
    simp only [pv_memrchr]
    rcases hr : pv_memrchr rest m with _ | j
    · have hnr : m ∉ rest := ih.mp hr
      by_cases hb : b = m
      · subst hb
        simp
      · simp only [if_neg hb, List.mem_cons]
        constructor
        · intro _ hc
          rcases hc with hc | hc
          · exact hb hc.symm
          · exact hnr hc
        · intro _
          trivial
    · have hj := pv_memrchr_some_mem hr
      have hmem : m ∈ rest := by
        rcases List.getElem?_eq_some_iff.mp hj with ⟨hlt, hget⟩
        exact hget ▸ List.getElem_mem hlt
      simp [hmem]

theorem pv_memrchr_some_last {l : List Nat} {m i : Nat} (h : pv_memrchr l m = some i) :
    ∀ j, i < j → l[j]? ≠ some m := by
  induction l generalizing i with
  | nil => simp [pv_memrchr] at h
  | cons b rest ih =>
    simp only [pv_memrchr] at h
    rcases hr : pv_memrchr rest m with _ | j0
    · rw [hr] at h
      split_ifs at h with hb
      · simp only [Option.some.injEq] at h
        have hnr : m ∉ rest := pv_memrchr_none_iff.mp hr
        intro j hij hc
        rcases j with _ | j1
        · omega
        · simp only [List.getElem?_cons_succ] at hc
          rcases List.getElem?_eq_some_iff.mp hc with ⟨hlt, hget⟩
          exact hnr (hget ▸ List.getElem_mem hlt)
    · rw [hr] at h
      simp only [Option.some.injEq] at h
      intro j hij hc
      rcases j with _ | j1
      · omega
      · simp only [List.getElem?_cons_succ] at hc
        exact ih hr j1 (by omega) hc

theorem window_after_read (buf chunk : List Nat) (wp rp : Nat)
    (hw : wp ≤ rp) (hr : rp ≤ buf.length) :
    ((buf.take rp ++ chunk ++ buf.drop (rp + chunk.length)).drop wp).take
        (rp + chunk.length - wp)
      = (buf.drop wp).take (rp - wp) ++ chunk := by
  have hA : (buf.take rp).length = rp := by
    rw [List.length_take]
    omega
  rw [List.append_assoc]
  rw [List.drop_append_of_le_length (by omega)]
  have hdA : ((buf.take rp).drop wp).length = rp - wp := by
    rw [List.length_drop, hA]
  have hsum : rp + chunk.length - wp = ((buf.take rp).drop wp).length + chunk.length := by
    rw [hdA]
    omega
  rw [hsum, ← List.append_assoc, ← List.length_append]
  rw [List.take_left]
  rw [List.drop_take]

theorem readPhase_spec (o : Nat) (L : PvLoop) (hinv : loopInv L) (hin : L.eof_in = false)
    (hroom : L.st.read_position < L.st.buffer_size) :
    loopInv (readPhase o L) ∧
    absBytes (readPhase o L) = absBytes L ∧
    (readPhase o L).st.write_position = L.st.write_position ∧
    (readPhase o L).st.to_write = L.st.to_write ∧
    L.st.read_position ≤ (readPhase o L).st.read_position := by
  obtain ⟨h1, h2, h3, h4, h5, h6⟩ := hinv
  have heo : L.eof_out = false := by
    cases heo : L.eof_out with
    | false => rfl
    | true => rw [(h5 heo).1] at hin; cases hin
  simp only [readPhase]
  by_cases h0 : min (o + 1) (min (L.st.buffer_size - L.st.read_position)
      L.current_input.length) = 0
  · rw [if_pos h0]
    have hcur : L.current_input = [] := by
      have : L.current_input.length = 0 := by omega
      exact List.eq_nil_of_length_eq_zero this
    refine ⟨⟨h1, h2, h3, fun _ => hcur, ?_, h6⟩, rfl, rfl, rfl, le_refl _⟩
    dsimp only
    split_ifs with hge
    · intro _
      exact ⟨rfl, by omega⟩
    · intro hc
      rw [heo] at hc
      cases hc
  · rw [if_neg h0]
    have hn1 : min (o + 1) (min (L.st.buffer_size - L.st.read_position)
        L.current_input.length) ≤ L.st.buffer_size - L.st.read_position := by omega
    have hn2 : min (o + 1) (min (L.st.buffer_size - L.st.read_position)
        L.current_input.length) ≤ L.current_input.length := by omega
    set nread := min (o + 1) (min (L.st.buffer_size - L.st.read_position)
        L.current_input.length) with hnr
    have hcl : (L.current_input.take nread).length = nread := by
      rw [List.length_take]
      omega
    have hblen : (L.st.transfer_buffer.take L.st.read_position ++
        L.current_input.take nread ++
        L.st.transfer_buffer.drop (L.st.read_position + nread)).length =
        L.st.buffer_size := by
      simp only [List.length_append, List.length_take, List.length_drop, h3]
      omega
    refine ⟨⟨?_, ?_, hblen, ?_, ?_, h6⟩, ?_, rfl, rfl, ?_⟩
    · dsimp only
      omega
    · dsimp only
      omega
    · dsimp only
      rw [hin]
      intro hc
      cases hc
    · dsimp only
      rw [heo]
      intro hc
      cases hc
    · simp only [absBytes, bufWindow]
      have hwem : ((L.st.transfer_buffer.take L.st.read_position ++
          L.current_input.take nread ++
          L.st.transfer_buffer.drop (L.st.read_position + nread)).drop
            L.st.write_position).take
              (L.st.read_position + nread - L.st.write_position)
          = (L.st.transfer_buffer.drop L.st.write_position).take
              (L.st.read_position - L.st.write_position) ++ L.current_input.take nread := by
        have := window_after_read L.st.transfer_buffer (L.current_input.take nread)
          L.st.write_position L.st.read_position h1 (by omega)
        rw [hcl] at this
        exact this
      rw [hwem]
      simp only [List.append_assoc, List.append_cancel_left_eq]
      rw [← List.append_assoc, List.take_append_drop]
    · dsimp only
      omega

theorem computeToWrite_spec (allowed : Nat) (L : PvLoop) (hinv : loopInv L) :
    loopInv (computeToWrite allowed L) ∧
    absBytes (computeToWrite allowed L) = absBytes L ∧
    (computeToWrite allowed L).st.to_write ≤
      (computeToWrite allowed L).st.read_position -
        (computeToWrite allowed L).st.write_position ∧
    (computeToWrite allowed L).st.read_position = L.st.read_position ∧
    (computeToWrite allowed L).st.write_position = L.st.write_position ∧
    (computeToWrite allowed L).st.buffer_size = L.st.buffer_size ∧
    (computeToWrite allowed L).eof_in = L.eof_in ∧
    (computeToWrite allowed L).eof_out = L.eof_out ∧
    (computeToWrite allowed L).st.linemode = L.st.linemode := by
  obtain ⟨h1, h2, h3, h4, h5, h6⟩ := hinv
  simp only [computeToWrite]
  refine ⟨⟨h1, h2, h3, h4, h5, h6⟩, rfl, ?_, by trivial, by trivial, by trivial,
    by trivial, by trivial, by trivial⟩
  dsimp only
  split_ifs <;> omega

theorem lineModeTruncate_spec (L : PvLoop) (hinv : loopInv L)
    (hpend : L.st.to_write ≤ L.st.read_position - L.st.write_position) :
    loopInv (lineModeTruncate L) ∧
    absBytes (lineModeTruncate L) = absBytes L ∧
    (lineModeTruncate L).st.to_write ≤ L.st.to_write ∧
    (lineModeTruncate L).st.read_position = L.st.read_position ∧
    (lineModeTruncate L).st.write_position = L.st.write_position ∧
    (lineModeTruncate L).eof_in = L.eof_in ∧
    (lineModeTruncate L).eof_out = L.eof_out := by
  obtain ⟨h1, h2, h3, h4, h5, h6⟩ := hinv
  simp only [lineModeTruncate]
  split_ifs with hc
  · rcases hm : pv_memrchr ((L.st.transfer_buffer.drop L.st.write_position).take
        L.st.to_write) 10 with _ | i
    · exact ⟨⟨h1, h2, h3, h4, h5, h6⟩, rfl, le_refl _, rfl, rfl, rfl, rfl⟩
    · have hlt := pv_memrchr_some_lt hm
      rw [List.length_take] at hlt
      refine ⟨⟨h1, h2, h3, h4, h5, h6⟩, rfl, ?_, rfl, rfl, rfl, rfl⟩
      dsimp only
      omega
  · exact ⟨⟨h1, h2, h3, h4, h5, h6⟩, rfl, le_refl _, rfl, rfl, rfl, rfl⟩

theorem rotateBuffer_spec (L : PvLoop) (hinv : loopInv L) :
    loopInv (rotateBuffer L) ∧
    absBytes (rotateBuffer L) = absBytes L ∧
    (rotateBuffer L).eof_in = L.eof_in ∧
    (rotateBuffer L).eof_out = L.eof_out ∧
    (rotateBuffer L).current_input = L.current_input ∧
    (rotateBuffer L).remaining_files = L.remaining_files ∧
    (rotateBuffer L).st.output = L.st.output ∧
    (rotateBuffer L).st.written = L.st.written := by
  obtain ⟨h1, h2, h3, h4, h5, h6⟩ := hinv
  simp only [rotateBuffer]
  split_ifs with hwp hlt
  · -- 0 < write_position < read_position: rotate down
    have hlen : ((L.st.transfer_buffer.drop L.st.write_position).take
        (L.st.read_position - L.st.write_position) ++
        L.st.transfer_buffer.drop (L.st.read_position - L.st.write_position)).length =
        L.st.buffer_size := by
      simp only [List.length_append, List.length_take, List.length_drop, h3]
      omega
    have hwin : (((L.st.transfer_buffer.drop L.st.write_position).take
          (L.st.read_position - L.st.write_position) ++
          L.st.transfer_buffer.drop (L.st.read_position - L.st.write_position)).drop 0).take
            (L.st.read_position - L.st.write_position - 0) =
        (L.st.transfer_buffer.drop L.st.write_position).take
          (L.st.read_position - L.st.write_position) := by
      rw [List.drop_zero, Nat.sub_zero]
      apply List.take_left'
      rw [List.length_take, List.length_drop, h3]
      omega
    refine ⟨⟨?_, ?_, hlen, h4, ?_, h6⟩, ?_, rfl, rfl, rfl, rfl, rfl, rfl⟩
    · dsimp only
      omega
    · dsimp only
      omega
    · dsimp only
      intro heo
      rcases h5 heo with ⟨hei, hwr⟩
      omega
    · simp only [absBytes, bufWindow]
      rw [hwin]
  · -- write_position ≥ read_position: reset both to zero
    have hwr : L.st.write_position = L.st.read_position := by omega
    refine ⟨⟨?_, ?_, ?_, ?_, ?_, ?_⟩, ?_, rfl, rfl, rfl, rfl, rfl, rfl⟩
    · dsimp only
      omega
    · dsimp only
      omega
    · exact h3
    · exact h4
    · dsimp only
      intro heo
      exact ⟨(h5 heo).1, rfl⟩
    · exact h6
    · simp only [absBytes, bufWindow]
      rw [hwr]
      simp
  · exact ⟨⟨h1, h2, h3, h4, h5, h6⟩, rfl, rfl, rfl, rfl, rfl, rfl, rfl⟩

theorem window_split (buf : List Nat) (wp rp k : Nat) (hk : k ≤ rp - wp) :
    (buf.drop wp).take k ++ (buf.drop (wp + k)).take (rp - (wp + k)) =
      (buf.drop wp).take (rp - wp) := by
  have h1 : ((buf.drop wp).take (rp - wp)).take k = (buf.drop wp).take k := by
    rw [List.take_take]
    congr 1
    omega
  have h2 : ((buf.drop wp).take (rp - wp)).drop k =
      (buf.drop (wp + k)).take (rp - (wp + k)) := by
    rw [List.drop_take, List.drop_drop]
    congr 1
    omega
  rw [← h1, ← h2, List.take_append_drop]

theorem writeSuccess_spec (k : Nat) (L : PvLoop) (hinv : loopInv L)
    (hk1 : 1 ≤ k) (hk : k ≤ L.st.read_position - L.st.write_position)
    (hout : L.eof_out = false) :
    loopInv (writeSuccess k L) ∧ absBytes (writeSuccess k L) = absBytes L := by
  obtain ⟨h1, h2, h3, h4, h5, h6⟩ := hinv
  have hchunk : (L.st.transfer_buffer.drop L.st.write_position).take k =
      (L.st.transfer_buffer.drop L.st.write_position).take
        (L.st.read_position - L.st.write_position) ∨
      L.st.write_position + k < L.st.read_position := by
    by_cases hc : L.st.write_position + k < L.st.read_position
    · exact Or.inr hc
    · left
      congr 1
      omega
  simp only [writeSuccess, h6]
  simp only [Bool.false_eq_true, if_false]
  split_ifs with hdrain hein
  · -- full drain, end of input already seen
    constructor
    · refine ⟨?_, ?_, h3, h4, ?_, rfl⟩
      · dsimp only
        omega
      · dsimp only
        omega
      · dsimp only
        intro _
        exact ⟨hein, rfl⟩
    · rcases hchunk with hchunk | hbad
      · simp only [absBytes, bufWindow]
        simp [hchunk, List.append_assoc]
      · omega
  · -- full drain, input not yet at end
    constructor
    · refine ⟨?_, ?_, h3, h4, ?_, rfl⟩
      · dsimp only
        omega
      · dsimp only
        omega
      · dsimp only
        rw [hout]
        intro hc
        cases hc
    · rcases hchunk with hchunk | hbad
      · simp only [absBytes, bufWindow]
        simp [hchunk, List.append_assoc]
      · omega
  · -- partial drain: advance the write cursor
    constructor
    · refine ⟨?_, ?_, h3, h4, ?_, rfl⟩
      · dsimp only
        omega
      · dsimp only
        omega
      · dsimp only
        rw [hout]
        intro hc
        cases hc
    · have hsplit := window_split L.st.transfer_buffer L.st.write_position
        L.st.read_position k hk
      simp only [absBytes, bufWindow]
      rw [← hsplit]
      simp [List.append_assoc]

theorem pv__transfer_write_good (outcome : Except WriteErr Nat) (L : PvLoop)
    (hinv : loopInv L)
    (hgood : (∃ n, outcome = Except.ok (n + 1)) ∨
      outcome = Except.error WriteErr.eintr ∨ outcome = Except.error WriteErr.eagain)
    (htw : 0 < L.st.to_write)
    (hpend : L.st.to_write ≤ L.st.read_position - L.st.write_position)
    (hout : L.eof_out = false) :
    loopInv (pv__transfer_write outcome L).1 ∧
    absBytes (pv__transfer_write outcome L).1 = absBytes L := by
  have h6 := hinv.2.2.2.2.2
  have hdi : ¬ (L.st.discard_input = true) := by
    rw [h6]
    exact Bool.false_ne_true
  rcases hgood with ⟨n, hn⟩ | hn | hn
  · subst hn
    obtain ⟨m, hm⟩ : ∃ m, min (n + 1) L.st.to_write = m + 1 :=
      ⟨min (n + 1) L.st.to_write - 1, by omega⟩
    have hred : pv__transfer_write (Except.ok (n + 1)) L = (writeSuccess (m + 1) L, 1) := by
      simp only [pv__transfer_write, if_neg hdi, if_pos htw, hm]
    rw [hred]
    exact writeSuccess_spec (m + 1) L hinv (by omega) (by omega) hout
  · subst hn
    have hred : pv__transfer_write (Except.error WriteErr.eintr) L = (L, 0) := by
      simp only [pv__transfer_write, if_neg hdi, if_pos htw]
    rw [hred]
    exact ⟨hinv, rfl⟩
  · subst hn
    have hred : pv__transfer_write (Except.error WriteErr.eagain) L = (L, 0) := by
      simp only [pv__transfer_write, if_neg hdi, if_pos htw]
    rw [hred]
    exact ⟨hinv, rfl⟩

theorem advanceFile_spec (L : PvLoop) (hinv : loopInv L) :
    loopInv (advanceFile L) ∧ absBytes (advanceFile L) = absBytes L := by
  obtain ⟨h1, h2, h3, h4, h5, h6⟩ := hinv
  simp only [advanceFile]
  split_ifs with hef
  · rcases hrem : L.remaining_files with _ | ⟨f, rest⟩
    · exact ⟨⟨h1, h2, h3, h4, h5, h6⟩, rfl⟩
    · constructor
      · refine ⟨h1, h2, h3, ?_, ?_, h6⟩
        · dsimp only
          intro hc
          cases hc
        · dsimp only
          intro hc
          cases hc
      · have hcur : L.current_input = [] := h4 hef.1
        simp only [absBytes, bufWindow]
        rw [hcur, hrem]
        simp
  · exact ⟨⟨h1, h2, h3, h4, h5, h6⟩, rfl⟩

theorem resetLineCount_spec (L : PvLoop) (hinv : loopInv L) :
    loopInv (resetLineCount L) ∧
    absBytes (resetLineCount L) = absBytes L ∧
    (resetLineCount L).eof_in = L.eof_in ∧
    (resetLineCount L).eof_out = L.eof_out ∧
    (resetLineCount L).st.read_position = L.st.read_position ∧
    (resetLineCount L).st.write_position = L.st.write_position ∧
    (resetLineCount L).st.buffer_size = L.st.buffer_size := by
  obtain ⟨h1, h2, h3, h4, h5, h6⟩ := hinv
  simp only [resetLineCount]
  split_ifs with hlm
  · exact ⟨⟨h1, h2, h3, h4, h5, h6⟩, rfl, rfl, rfl, rfl, rfl, rfl⟩
  · exact ⟨⟨h1, h2, h3, h4, h5, h6⟩, rfl, rfl, rfl, rfl, rfl, rfl⟩

theorem resetWritten_spec (L : PvLoop) (hinv : loopInv L) :
    loopInv (resetWritten L) ∧
    absBytes (resetWritten L) = absBytes L ∧
    (resetWritten L).eof_in = L.eof_in ∧
    (resetWritten L).eof_out = L.eof_out ∧
    (resetWritten L).st.read_position = L.st.read_position ∧
    (resetWritten L).st.write_position = L.st.write_position ∧
    (resetWritten L).st.buffer_size = L.st.buffer_size ∧
    (resetWritten L).st.to_write = L.st.to_write := by
  obtain ⟨h1, h2, h3, h4, h5, h6⟩ := hinv
  exact ⟨⟨h1, h2, h3, h4, h5, h6⟩, rfl, rfl, rfl, rfl, rfl, rfl, rfl⟩


theorem pv_transfer_spec (c : TransferChoice) (allowed : Nat) (L0 : PvLoop)
    (hinv : loopInv L0) (hgood : goodChoice c) :
    loopInv (pv_transfer c allowed L0).1 ∧
    absBytes (pv_transfer c allowed L0).1 = absBytes L0 := by
  simp only [goodChoice] at hgood
  obtain ⟨hAinv, hAabs, hAei, hAeo, hArp, hAwp, hAbs⟩ := resetLineCount_spec L0 hinv
  simp only [pv_transfer]
  by_cases hEof : ((resetLineCount L0).eof_in = true ∧ (resetLineCount L0).eof_out = true)
  · rw [if_pos hEof]
    exact ⟨hAinv, hAabs⟩
  · rw [if_neg hEof]
    obtain ⟨hBinv, hBabs, hBle, hBrp, hBwp, hBbs, hBei, hBeo, hBlm⟩ :=
      computeToWrite_spec allowed (resetLineCount L0) hAinv
    obtain ⟨hCinv, hCabs, hCei, hCeo, hCrp, hCwp, hCbs, hCtw⟩ :=
      resetWritten_spec (computeToWrite allowed (resetLineCount L0)) hBinv
    set M3 := resetWritten (computeToWrite allowed (resetLineCount L0)) with hM3def
    set M4 := (if (c.ready_read && checkRead (resetLineCount L0)) = true
        then readPhase c.read_oracle M3 else M3) with hM4def
    have hD : loopInv M4 ∧ absBytes M4 = absBytes M3 ∧
        M4.st.write_position = M3.st.write_position ∧
        M4.st.to_write = M3.st.to_write ∧
        M3.st.read_position ≤ M4.st.read_position := by
      rw [hM4def]
      by_cases hRR : (c.ready_read && checkRead (resetLineCount L0)) = true
      · rw [if_pos hRR]
        simp only [Bool.and_eq_true, checkRead, Bool.not_eq_eq_eq_not, Bool.not_true,
          decide_eq_true_eq] at hRR
        have hei3 : M3.eof_in = false := by
          rw [hCei, hBei]
          exact hRR.2.1
        have hroom3 : M3.st.read_position < M3.st.buffer_size := by
          rw [hCrp, hBrp, hCbs, hBbs]
          exact hRR.2.2
        obtain ⟨hi, ha, hw, ht, hr⟩ := readPhase_spec c.read_oracle M3 hCinv hei3 hroom3
        exact ⟨hi, ha, hw, ht, hr⟩
      · rw [if_neg hRR]
        exact ⟨hCinv, rfl, rfl, rfl, le_refl _⟩
    obtain ⟨hDinv, hDabs, hDwp, hDtw, hDrp⟩ := hD
    have hDpend : M4.st.to_write ≤ M4.st.read_position - M4.st.write_position := by
      rw [hDwp, hDtw, hCtw, hCwp]
      have h1 := hBle
      have h2 : (computeToWrite allowed (resetLineCount L0)).st.read_position ≤
          M4.st.read_position := by
        rw [← hCrp]
        exact hDrp
      omega
    obtain ⟨hEinv, hEabs, hEtwle, hErp, hEwp, hEei, hEeo⟩ :=
      lineModeTruncate_spec M4 hDinv hDpend
    set M5 := lineModeTruncate M4 with hM5def
    by_cases hW : (c.ready_write &&
        checkWrite (computeToWrite allowed (resetLineCount L0)) &&
        decide (M5.st.read_position > M5.st.write_position) &&
        decide (M5.st.to_write > 0)) = true
    · rw [if_pos hW]
      simp only [Bool.and_eq_true, decide_eq_true_eq] at hW
      have htw5 : 0 < M5.st.to_write := hW.2
      have hgt5 : M5.st.write_position < M5.st.read_position := hW.1.2
      have hout5 : M5.eof_out = false := by
        cases h5eo : M5.eof_out with
        | false => rfl
        | true =>
          have := (hEinv.2.2.2.2.1 h5eo).2
          omega
      have hpend5 : M5.st.to_write ≤ M5.st.read_position - M5.st.write_position := by
        rw [hErp, hEwp]
        omega
      obtain ⟨hFinv, hFabs⟩ :=
        pv__transfer_write_good c.write_outcome M5 hEinv hgood htw5 hpend5 hout5
      rcases hres : pv__transfer_write c.write_outcome M5 with ⟨L2, rc⟩
      rw [hres] at hFinv hFabs
      dsimp only at hFinv hFabs
      rcases rc with _ | rc
      · dsimp only
        refine ⟨hFinv, ?_⟩
        rw [hFabs, hEabs, hDabs, hCabs, hBabs, hAabs]
      · obtain ⟨hGinv, hGabs, _, _, _, _, _, _⟩ := rotateBuffer_spec L2 hFinv
        refine ⟨hGinv, ?_⟩
        show absBytes (rotateBuffer L2) = absBytes L0
        rw [hGabs, hFabs, hEabs, hDabs, hCabs, hBabs, hAabs]
    · rw [if_neg hW]
      dsimp only
      obtain ⟨hGinv, hGabs, _, _, _, _, _, _⟩ := rotateBuffer_spec M5 hEinv
      refine ⟨hGinv, ?_⟩
      rw [hGabs, hEabs, hDabs, hCabs, hBabs, hAabs]

theorem pv_main_loop_step_spec (c : TransferChoice) (L : PvLoop)
    (hinv : loopInv L) (hgood : goodChoice c) :
    loopInv (pv_main_loop_step c L) ∧ absBytes (pv_main_loop_step c L) = absBytes L := by
  obtain ⟨h1, h2⟩ := pv_transfer_spec c 0 L hinv hgood
  obtain ⟨h3, h4⟩ := advanceFile_spec (pv_transfer c 0 L).1 h1
  simp only [pv_main_loop_step]
  exact ⟨h3, h4.trans h2⟩

theorem pv_main_loop_run_spec (cs : List TransferChoice) (L : PvLoop)
    (hinv : loopInv L) (hgood : ∀ c ∈ cs, goodChoice c) :
    loopInv (pv_main_loop_run cs L) ∧ absBytes (pv_main_loop_run cs L) = absBytes L := by
  induction cs generalizing L with
  | nil => exact ⟨hinv, rfl⟩
  | cons c cs ih =>
    simp only [pv_main_loop_run, List.foldl_cons]
    obtain ⟨h1, h2⟩ := pv_main_loop_step_spec c L hinv (hgood c (List.mem_cons_self c cs))
    obtain ⟨h3, h4⟩ := ih (pv_main_loop_step c L) h1
      (fun x hx => hgood x (List.mem_cons_of_mem c hx))
    simp only [pv_main_loop_run] at h3 h4
    exact ⟨h3, h4.trans h2⟩

theorem initPvLoop_inv (bufsize : Nat) (first : List Nat) (rest : List (List Nat))
    (linemode null_terminated : Bool) :
    loopInv (initPvLoop bufsize first rest linemode null_terminated) := by
  refine ⟨Nat.le_refl 0, Nat.zero_le _, List.length_replicate bufsize 0, ?_, ?_, rfl⟩
  · intro hc
    cases hc
  · intro hc
    cases hc

theorem initPvLoop_abs (bufsize : Nat) (first : List Nat) (rest : List (List Nat))
    (linemode null_terminated : Bool) :
    absBytes (initPvLoop bufsize first rest linemode null_terminated) =
      first ++ rest.flatten := by
  simp [absBytes, bufWindow, initPvLoop]

/-- C1: for every run of the modelled main transfer loop — any input files,
any buffer size, any byte-or-line mode, any interleaving of partial reads
and partial writes the operating system may produce on healthy descriptors —
once both EOF flags are set and no files remain, the bytes written to
standard output are exactly the concatenation, in order, of the contents of
all the input files: the transfer engine never transforms, drops, or
duplicates payload bytes.  (Discard-output is off in `initPvLoop`.) -/
theorem pv_main_loop_byte_stream_identity (bufsize : Nat) (first : List Nat)
    (rest : List (List Nat)) (linemode null_terminated : Bool)
    (cs : List TransferChoice) (hgood : ∀ c ∈ cs, goodChoice c)
    (hin : (pv_main_loop_run cs
      (initPvLoop bufsize first rest linemode null_terminated)).eof_in = true)
    (hout : (pv_main_loop_run cs
      (initPvLoop bufsize first rest linemode null_terminated)).eof_out = true)
    (hfiles : (pv_main_loop_run cs
      (initPvLoop bufsize first rest linemode null_terminated)).remaining_files = []) :
    (pv_main_loop_run cs
      (initPvLoop bufsize first rest linemode null_terminated)).st.output =
      first ++ rest.flatten := by
  obtain ⟨hinv, habs⟩ := pv_main_loop_run_spec cs
    (initPvLoop bufsize first rest linemode null_terminated)
    (initPvLoop_inv bufsize first rest linemode null_terminated) hgood
  obtain ⟨h1, h2, h3, h4, h5, h6⟩ := hinv
  have hwin : bufWindow (pv_main_loop_run cs
      (initPvLoop bufsize first rest linemode null_terminated)) = [] := by
    simp only [bufWindow]
    rw [(h5 hout).2, Nat.sub_self, List.take_zero]
  have hcur := h4 hin
  rw [initPvLoop_abs] at habs
  simp only [absBytes, hwin, hcur, hfiles] at habs
  simpa using habs

/-- A schedule entry for the witness run: both sides ready, up to 100 bytes
each way. -/
def witnessChoice : TransferChoice :=
  { ready_read := true
    ready_write := true
    read_oracle := 99
    write_outcome := Except.ok 100 }

theorem pv_main_loop_byte_stream_identity_witness :
    (pv_main_loop_run (List.replicate 9 witnessChoice)
      (initPvLoop 4 [1, 2, 3, 4, 5] [[6, 7], [8]] false false)).st.output =
      [1, 2, 3, 4, 5] ++ ([[6, 7], [8]] : List (List Nat)).flatten := by
  apply pv_main_loop_byte_stream_identity
  · intro c hc
    rw [List.eq_of_mem_replicate hc]
    exact Or.inl ⟨99, rfl⟩
  · decide
  · decide
  · decide

/-- A loop state in line mode with null-terminated lines configured, whose
pending region "a\0b" contains a NUL record separator followed by an
unterminated byte. -/
def nullRecordPending : PvLoop :=
  { st := { buffer_size := 3
            transfer_buffer := [97, 0, 98]
            read_position := 3
            write_position := 0
            to_write := 3
            written := 0
            lineswritten := 0
            exit_status := 0
            error_msgs := []
            linemode := true
            null_terminated_lines := true
            discard_input := false
            rate_limit := 0
            output := [] }
    eof_in := false
    eof_out := false
    current_input := []
    remaining_files := [] }

/-- C2 (counterexample): in line mode with null-terminated lines configured,
the pending region "a\0b" has its last NUL separator at index 1, so a
separator-aligned restriction would cut the pending write to 2 bytes; the
truncation step leaves it at 3 — with NUL lines configured no truncation
happens at all and the partial record "b" is written. -/
theorem lineModeTruncate_null_terminated_cex :
    pv_memrchr ((nullRecordPending.st.transfer_buffer.drop
      nullRecordPending.st.write_position).take nullRecordPending.st.to_write) 0 = some 1 ∧
    (lineModeTruncate nullRecordPending).st.to_write = 3 ∧
    (3 : Nat) ≠ 1 + 1 := by
  decide

/-- C2 (amended): the truncation step of `pv_transfer` runs only in line
mode with null-terminated lines off.  There, when the pending region
contains a newline, the pending write is restricted to end just after the
last newline; when it contains none the pending write is left alone (a
partial line is written).  With null-terminated lines configured, or outside
line mode, the state is unchanged — there is no truncation at NUL. -/
theorem lineModeTruncate_newline_only (L : PvLoop) :
    (L.st.null_terminated_lines = true → lineModeTruncate L = L) ∧
    (L.st.linemode = false → lineModeTruncate L = L) ∧
    (L.st.linemode = true → L.st.null_terminated_lines = false → 0 < L.st.to_write →
      (10 ∉ (L.st.transfer_buffer.drop L.st.write_position).take L.st.to_write →
        lineModeTruncate L = L) ∧
      (10 ∈ (L.st.transfer_buffer.drop L.st.write_position).take L.st.to_write →
        ∃ i, pv_memrchr ((L.st.transfer_buffer.drop L.st.write_position).take
            L.st.to_write) 10 = some i ∧
          (lineModeTruncate L).st.to_write = i + 1 ∧
          ((L.st.transfer_buffer.drop L.st.write_position).take L.st.to_write)[i]? =
            some 10 ∧
          ∀ j, i < j →
            ((L.st.transfer_buffer.drop L.st.write_position).take L.st.to_write)[j]? ≠
              some 10)) := by
  refine ⟨?_, ?_, ?_⟩
  · intro hnt
    simp only [lineModeTruncate]
    rw [if_neg]
    simp [hnt]
  · intro hlm
    simp only [lineModeTruncate]
    rw [if_neg]
    simp [hlm]
  · intro hlm hnt htw
    have hcond : 0 < L.st.to_write ∧ L.st.linemode = true ∧
        ¬ (L.st.null_terminated_lines = true) := by
      refine ⟨htw, hlm, ?_⟩
      rw [hnt]
      exact Bool.false_ne_true
    constructor
    · intro hnm
      have hnone := pv_memrchr_none_iff.mpr hnm
      simp only [lineModeTruncate]
      rw [if_pos hcond, hnone]
    · intro hm
      rcases hsome : pv_memrchr ((L.st.transfer_buffer.drop
          L.st.write_position).take L.st.to_write) 10 with _ | i
      · exact absurd (pv_memrchr_none_iff.mp hsome) (by simpa using hm)
      · refine ⟨i, rfl, ?_, pv_memrchr_some_mem hsome, pv_memrchr_some_last hsome⟩
        simp only [lineModeTruncate]
        rw [if_pos hcond, hsome]

theorem lineModeTruncate_newline_only_witness :
    lineModeTruncate nullRecordPending = nullRecordPending := by
  have h := (lineModeTruncate_newline_only nullRecordPending).1
  exact h (by decide)

/-- The state `pv_transfer` passes to its write phase: line counter reset,
throughput limit applied, written counter reset, read phase run when the
input side was watched and ready, then line-mode truncation.  This is
exactly the prefix of `pv_transfer` before the write guard. -/
def preWriteState (c : TransferChoice) (allowed : Nat) (L0 : PvLoop) : PvLoop :=
  let L := resetLineCount L0
  let check_read := checkRead L
  let L := computeToWrite allowed L
  let L := resetWritten L
  let L := if c.ready_read && check_read then readPhase c.read_oracle L else L
  lineModeTruncate L

theorem preWriteState_fields (c : TransferChoice) (allowed : Nat) (L0 : PvLoop) :
    (preWriteState c allowed L0).st.exit_status = L0.st.exit_status ∧
    (preWriteState c allowed L0).st.error_msgs = L0.st.error_msgs := by
  constructor <;>
    (simp only [preWriteState, lineModeTruncate, readPhase, resetWritten, computeToWrite,
       checkRead, resetLineCount]
     repeat' split
     all_goals rfl)

theorem pv_transfer_eq_write (c : TransferChoice) (allowed : Nat) (L0 : PvLoop)
    (hne : ¬(L0.eof_in = true ∧ L0.eof_out = true))
    (hready : (c.ready_write && checkWrite (computeToWrite allowed (resetLineCount L0))) = true)
    (hrp : (preWriteState c allowed L0).st.read_position >
      (preWriteState c allowed L0).st.write_position)
    (htw : 0 < (preWriteState c allowed L0).st.to_write) :
    pv_transfer c allowed L0 =
      match pv__transfer_write c.write_outcome (preWriteState c allowed L0) with
      | (L2, 0) => (L2, 0)
      | (L2, _) => (rotateBuffer L2, L2.st.written) := by
  have heof : (resetLineCount L0).eof_in = L0.eof_in ∧
      (resetLineCount L0).eof_out = L0.eof_out := by
    simp only [resetLineCount]
    split <;> exact ⟨rfl, rfl⟩
  have hun : pv_transfer c allowed L0 =
      if (resetLineCount L0).eof_in = true ∧ (resetLineCount L0).eof_out = true then
        (resetLineCount L0, 0)
      else if (c.ready_write && checkWrite (computeToWrite allowed (resetLineCount L0)) &&
          decide ((preWriteState c allowed L0).st.read_position >
            (preWriteState c allowed L0).st.write_position) &&
          decide ((preWriteState c allowed L0).st.to_write > 0)) = true then
        match pv__transfer_write c.write_outcome (preWriteState c allowed L0) with
        | (L2, 0) => (L2, 0)
        | (L2, _) => (rotateBuffer L2, L2.st.written)
      else (rotateBuffer (preWriteState c allowed L0),
        (preWriteState c allowed L0).st.written) := rfl
  have hcond : (c.ready_write && checkWrite (computeToWrite allowed (resetLineCount L0)) &&
      decide ((preWriteState c allowed L0).st.read_position >
        (preWriteState c allowed L0).st.write_position) &&
      decide ((preWriteState c allowed L0).st.to_write > 0)) = true := by
    rw [Bool.and_eq_true, Bool.and_eq_true]
    exact ⟨⟨hready, decide_eq_true hrp⟩, decide_eq_true htw⟩
  rw [hun, if_neg (by rw [heof.1, heof.2]; exact hne), if_pos hcond]

/-- C8: whenever `pv_transfer` reaches its write phase (neither side already
at end-of-file, the output side watched and writable, bytes pending past the
write cursor, discard-output off) and the write to standard output fails
with EPIPE, the engine sets both the end-of-input and end-of-output flags
and `pv_transfer` returns zero, appending no error message and leaving the
exit status untouched. -/
theorem pv_transfer_epipe_spec (c : TransferChoice) (allowed : Nat) (L0 : PvLoop)
    (hout : c.write_outcome = Except.error WriteErr.epipe)
    (hne : ¬(L0.eof_in = true ∧ L0.eof_out = true))
    (hready : (c.ready_write && checkWrite (computeToWrite allowed (resetLineCount L0))) = true)
    (hrp : (preWriteState c allowed L0).st.read_position >
      (preWriteState c allowed L0).st.write_position)
    (htw : 0 < (preWriteState c allowed L0).st.to_write)
    (hdi : (preWriteState c allowed L0).st.discard_input = false) :
    pv_transfer c allowed L0 =
      ({ preWriteState c allowed L0 with eof_in := true, eof_out := true }, 0) ∧
    (pv_transfer c allowed L0).1.eof_in = true ∧
    (pv_transfer c allowed L0).1.eof_out = true ∧
    (pv_transfer c allowed L0).2 = 0 ∧
    (pv_transfer c allowed L0).1.st.exit_status = L0.st.exit_status ∧
    (pv_transfer c allowed L0).1.st.error_msgs = L0.st.error_msgs := by
  have hM : pv__transfer_write c.write_outcome (preWriteState c allowed L0) =
      ({ preWriteState c allowed L0 with eof_in := true, eof_out := true }, 0) := by
    rw [hout]
    simp only [pv__transfer_write, hdi]
    rw [if_neg (by simp), if_pos htw]
  have heq := pv_transfer_eq_write c allowed L0 hne hready hrp htw
  rw [hM] at heq
  have heq2 : pv_transfer c allowed L0 =
      ({ preWriteState c allowed L0 with eof_in := true, eof_out := true }, 0) := heq
  refine ⟨heq2, ?_, ?_, ?_, ?_, ?_⟩ <;> rw [heq2]
  · exact (preWriteState_fields c allowed L0).1
  · exact (preWriteState_fields c allowed L0).2

/-- A loop state with three unwritten bytes buffered, both EOF flags clear
and discard-output off, used to exercise the EPIPE write path. -/
def pipeClosedRun : PvLoop :=
  { st := { buffer_size := 4
            transfer_buffer := [1, 2, 3, 0]
            read_position := 3
            write_position := 0
            to_write := 0
            written := 0
            lineswritten := 0
            exit_status := 0
            error_msgs := []
            linemode := false
            null_terminated_lines := false
            discard_input := false
            rate_limit := 0
            output := [] }
    eof_in := false
    eof_out := false
    current_input := []
    remaining_files := [] }

theorem pv_transfer_epipe_spec_witness :
    pv_transfer ⟨false, true, 0, Except.error WriteErr.epipe⟩ 0 pipeClosedRun =
      ({ preWriteState ⟨false, true, 0, Except.error WriteErr.epipe⟩ 0 pipeClosedRun with
         eof_in := true, eof_out := true }, 0) ∧
    (pv_transfer ⟨false, true, 0, Except.error WriteErr.epipe⟩ 0 pipeClosedRun).1.eof_in = true ∧
    (pv_transfer ⟨false, true, 0, Except.error WriteErr.epipe⟩ 0 pipeClosedRun).1.eof_out = true ∧
    (pv_transfer ⟨false, true, 0, Except.error WriteErr.epipe⟩ 0 pipeClosedRun).2 = 0 ∧
    (pv_transfer ⟨false, true, 0, Except.error WriteErr.epipe⟩ 0 pipeClosedRun).1.st.exit_status =
      pipeClosedRun.st.exit_status ∧
    (pv_transfer ⟨false, true, 0, Except.error WriteErr.epipe⟩ 0 pipeClosedRun).1.st.error_msgs =
      pipeClosedRun.st.error_msgs :=
  pv_transfer_epipe_spec ⟨false, true, 0, Except.error WriteErr.epipe⟩ 0 pipeClosedRun
    rfl (by decide) (by decide) (by decide) (by decide) (by decide)
